import Mathlib

/-!
Verification development for the csv-validator repository.

The Python source (src/csv_validator/helpers.py, model.py, __main__.py) is
shallowly embedded below.  Python strings are Lean `String`s and the string
primitives used by the source (`str.strip`, `str.lower`, `str.split`) are
re-implemented over the character list `String.data`, restricted to the ASCII
behaviour that the CSV inputs exercise.  A Python `set` is modelled as a
duplicate-free `List` in insertion order, and Python exceptions are modelled
with `Except`/`Option` results.  The closure state of `helpers.unique` (the
`seen` set) is passed explicitly.
-/

/-- Python `str.isspace` on the ASCII whitespace characters that `str.strip`
removes by default. -/
def pyIsSpaceChar (c : Char) : Bool :=
  c = ' ' || c = '\t' || c = '\n' || c = '\r' || c = '\x0b' || c = '\x0c'

/-- Python `s.strip()`: drop leading and trailing whitespace. -/
def pyStrip (s : String) : String :=
  String.mk (((s.data.dropWhile pyIsSpaceChar).reverse.dropWhile pyIsSpaceChar).reverse)

/-- ASCII case folding of one character, as `str.lower` acts on ASCII input. -/
def pyLowerChar (c : Char) : Char :=
  if 'A' ≤ c && c ≤ 'Z' then Char.ofNat (c.toNat + 32) else c

/-- Python `s.lower()` (ASCII fragment). -/
def pyLower (s : String) : String :=
  String.mk (s.data.map pyLowerChar)

/-- Core of Python `s.split(sep)` for a one-character separator: cut the
character list at every occurrence of `sep`, keeping empty pieces. -/
def splitChAux (sep : Char) : List Char → List Char → List (List Char)
  | [], acc => [acc.reverse]
  | c :: cs, acc =>
      if c = sep then acc.reverse :: splitChAux sep cs []
      else splitChAux sep cs (c :: acc)

/-- Python `s.split(sep)` for a one-character separator, e.g.
`"a,,b".split(',') = ["a", "", "b"]` and `"".split(',') = [""]`. -/
def pySplitCh (sep : Char) (s : String) : List String :=
  (splitChAux sep s.data []).map String.mk

/-- Insertion into the list model of a Python `set`: keep the element only if
it is not already present. -/
def pySetInsert (acc : List String) (x : String) : List String :=
  if x ∈ acc then acc else acc ++ [x]

/-- The list model of Python `set(xs)`: deduplicate, keeping first
occurrences in order. -/
def pySetOfList (l : List String) : List String :=
  l.foldl pySetInsert []

/-- Embedding of `helpers.coerce_splt_commas_rtn_set_strs`: for a truthy
(non-empty) string, split on commas, keep the tokens that are non-empty
BEFORE stripping (the Python generator guard `if e` tests the raw token),
strip each surviving token, and collect into a set; an empty input returns
`None`. -/
def coerce_splt_commas_rtn_set_strs (s : String) : Option (List String) :=
  if s = "" then none
  else some (pySetOfList (((pySplitCh ',' s).filter (fun e => e ≠ "")).map pyStrip))

/-- Embedding of `model.BaseCluster.dump_set_of_vals`: a truthy (non-`None`,
non-empty) set is rendered as the comma-join of its members in the set's
iteration order; `None` and the empty set render as `""`. -/
def dump_set_of_vals (vals : Option (List String)) : String :=
  match vals with
  | some (v :: vs) => String.intercalate "," (v :: vs)
  | _ => ""

/-- The `ValueError` message raised by the closure inside `helpers.unique`
(the source f-string `f'Value "{v} is not unique'` lacks a closing quote). -/
def uniqueValueMsg {α} [ToString α] (v : α) : String :=
  "Value \"" ++ toString v ++ " is not unique"

/-- Embedding of the `nested` closure returned by `helpers.unique`: the
captured `seen` set is passed in and returned explicitly.  If `v` was already
seen, a `ValueError` is raised and `seen` is unchanged; otherwise `v` is added
to `seen` and returned unchanged. -/
def unique_nested {α} [DecidableEq α] [ToString α] (v : α) (seen : List α) :
    Except String α × List α :=
  if v ∈ seen then (Except.error (uniqueValueMsg v), seen)
  else (Except.ok v, v :: seen)

/-- ASCII decimal digit test. -/
def isDigitChar (c : Char) : Bool := '0' ≤ c && c ≤ '9'

/-- Numeric value of an ASCII digit string. -/
def digitsToNat (cs : List Char) : Nat :=
  cs.foldl (fun n c => 10 * n + (c.toNat - '0'.toNat)) 0

/-- Leading-zero check of `ipaddress._parse_octet`: a multi-character octet
must not start with `'0'`. -/
def noLeadingZero : List Char → Bool
  | [] => false
  | [_] => true
  | c :: _ :: _ => c ≠ '0'

/-- Validity of one dotted-quad octet, following `ipaddress._parse_octet`:
1 to 3 ASCII digits, no leading zero, value at most 255. -/
def validOctet (s : String) : Bool :=
  s.data ≠ [] && s.data.all isDigitChar && s.data.length ≤ 3
    && noLeadingZero s.data && digitsToNat s.data ≤ 255

/-- Validity of the address part of an IPv4 CIDR string: exactly four valid
octets separated by dots. -/
def validIPv4Addr (s : String) : Bool :=
  match pySplitCh '.' s with
  | [a, b, c, d] => validOctet a && validOctet b && validOctet c && validOctet d
  | _ => false

/-- Validity of a decimal netmask length: digits with value at most 32
(`IPv4Network._make_netmask` for a digit-string argument; the dotted-quad
netmask form accepted by Python is not needed by the inputs modelled here). -/
def validMaskLen (s : String) : Bool :=
  s.data ≠ [] && s.data.all isDigitChar && digitsToNat s.data ≤ 32

/-- Whether `ipaddress.IPv4Network(s, strict=False)` accepts `s`: an address
with an optional `/masklen` part (at most one `/`).  With `strict=False` host
bits may be set, so no host-bit check is performed. -/
def ipv4NetworkOk (s : String) : Bool :=
  match pySplitCh '/' s with
  | [addr] => validIPv4Addr addr
  | [addr, mask] => validIPv4Addr addr && validMaskLen mask
  | _ => false

/-- Embedding of `helpers.validate_ipv4_address`: an empty value passes when
not mandatory; otherwise the value must parse as an IPv4 network in
non-strict mode, and the ORIGINAL string is returned unchanged.  On failure a
`ValueError` whose message cites the invalid CIDR value is raised (the
underlying `ipaddress` error text appended by the source is omitted here). -/
def validate_ipv4_address (ip : String) (is_mandatory : Bool := true) :
    Except String String :=
  if ip = "" && !is_mandatory then Except.ok ip
  else if ipv4NetworkOk ip then Except.ok ip
  else Except.error ("Invalid CIDR value: " ++ ip)

/-- Embedding of `helpers.validate_cidr`, which delegates to
`validate_ipv4_address`. -/
def validate_cidr (ip : String) : Except String String :=
  validate_ipv4_address ip

/-- Serialization of a plain string field by `model_dump`: the string passes
through unchanged. -/
def dump_str_field (s : String) : String := s

/-- Result of validating one field value: the coerced value, or the pydantic
error message for that field. -/
inductive FieldResult where
  | ok (v : String)
  | err (msg : String)
deriving DecidableEq

/-- Boolean test for a failed `FieldResult`. -/
def isErrR : FieldResult → Bool
  | FieldResult.err _ => true
  | FieldResult.ok _ => false

/-- Normalization performed by the `StringConstraints` of `model.ClusterName`
(`strip_whitespace=True, to_lower=True`). -/
def clusterNameNorm (s : String) : String :=
  pyLower (pyStrip s)

/-- Embedding of the full `model.ClusterName` pipeline applied to one raw
value: strip and lower-case, enforce `min_length=1` and `max_length=30` (with
pydantic's messages), then run the `unique` after-validator against the
session's seen-set.  Pydantic reports a `ValueError` raised by an
after-validator with the message `Value error, <text>`. -/
def validateClusterName (s : String) (seen : List String) :
    FieldResult × List String :=
  let v := clusterNameNorm s
  if v.length < 1 then (FieldResult.err "String should have at least 1 character", seen)
  else if 30 < v.length then (FieldResult.err "String should have at most 30 characters", seen)
  else
    match unique_nested v seen with
    | (Except.ok w, seen2) => (FieldResult.ok w, seen2)
    | (Except.error m, seen2) => (FieldResult.err ("Value error, " ++ m), seen2)

/-- One validation session over the `cluster_name` column: the rows' raw
values are validated in order, threading the `unique` closure's seen-set,
which starts empty when the CLI process imports the model module.  Returns
the per-row results and the final seen-set. -/
def runSession : List String → List String → List FieldResult × List String
  | [], seen => ([], seen)
  | v :: rest, seen =>
      let p := validateClusterName v seen
      let q := runSession rest p.2
      (p.1 :: q.1, q.2)

/-- Number of values in the list that are not yet in `seen`, counted
left-to-right with each new value added to `seen` (the number of successful
uniqueness checks). -/
def newDistinct : List String → List String → Nat
  | [], _ => 0
  | v :: rest, seen =>
      if v ∈ seen then newDistinct rest seen
      else newDistinct rest (v :: seen) + 1

/-- Embedding of `model.ClusterTags`' second before-validator
(`coerce_empty_str_to_none` applied to the set produced by the comma-split):
a falsy value (`None` or the empty set) becomes `None`. -/
def coerce_empty_obj_to_none (r : Option (List String)) : Option (List String) :=
  match r with
  | some (x :: xs) => some (x :: xs)
  | _ => none

/-- The coerced value of the `cluster_tags` field: split on commas into a
set, then turn a falsy result into `None`. -/
def clusterTagsValue (s : String) : Option (List String) :=
  coerce_empty_obj_to_none (coerce_splt_commas_rtn_set_strs s)

/-- One field-level error reported by `CLI._validate_csv_row` from a pydantic
`ValidationError`: the column name (`loc`), the message (`msg`), and the raw
offending input (`input`). -/
structure FieldError where
  field : String
  msg : String
  input : String
deriving DecidableEq

/-- Errors contributed by one field's result. -/
def errOf {β} : Except FieldError β → List FieldError
  | Except.error e => [e]
  | Except.ok _ => []

/-- Validation of the `cluster_name` field of `model.BaseCluster` within a
row: a missing key is pydantic's `Field required`; otherwise the
`ClusterName` pipeline runs and a failure is reported against the column
with the raw input attached. -/
def checkClusterName (row : List (String × String)) (seen : List String) :
    Except FieldError String × List String :=
  match row.lookup "cluster_name" with
  | none => (Except.error ⟨"cluster_name", "Field required", ""⟩, seen)
  | some s =>
      match validateClusterName s seen with
      | (FieldResult.ok v, seen2) => (Except.ok v, seen2)
      | (FieldResult.err m, seen2) => (Except.error ⟨"cluster_name", m, s⟩, seen2)

/-- Validation of the `cluster_group` field (`str`): any present string is
accepted. -/
def checkClusterGroup (row : List (String × String)) : Except FieldError String :=
  match row.lookup "cluster_group" with
  | none => Except.error ⟨"cluster_group", "Field required", ""⟩
  | some s => Except.ok s

/-- Validation of the `cluster_tags` field (`ClusterTags`): any present
string coerces successfully (possibly to `None`). -/
def checkClusterTags (row : List (String × String)) :
    Except FieldError (Option (List String)) :=
  match row.lookup "cluster_tags" with
  | none => Except.error ⟨"cluster_tags", "Field required", ""⟩
  | some s => Except.ok (clusterTagsValue s)

/-- The column names declared by `model.BaseCluster`, in declaration order. -/
def schemaFieldNames : List String :=
  ["cluster_name", "cluster_group", "cluster_tags"]

/-- Errors produced by `extra='forbid'` on `model.BaseCluster`: one per row
key that is not a declared field. -/
def extraFieldErrs (row : List (String × String)) : List FieldError :=
  (row.filter (fun kv => decide (kv.1 ∉ schemaFieldNames))).map
    (fun kv => ⟨kv.1, "Extra inputs are not permitted", kv.2⟩)

/-- A validated `model.BaseCluster` record. -/
structure BaseClusterRec where
  cluster_name : String
  cluster_group : String
  cluster_tags : Option (List String)
deriving DecidableEq

/-- Assembles the record when every field succeeded. -/
def recOf : Except FieldError String → Except FieldError String →
    Except FieldError (Option (List String)) → Option BaseClusterRec
  | Except.ok a, Except.ok b, Except.ok c => some ⟨a, b, c⟩
  | _, _, _ => none

/-- Validation of one raw row against `model.BaseCluster`: every declared
field is evaluated (pydantic does not stop at the first failing field), the
per-field errors and the `extra='forbid'` errors are all collected, and a
record is produced only when there is no error.  The `unique` closure's
seen-set is threaded through. -/
def validateRow (row : List (String × String)) (seen : List String) :
    (Option BaseClusterRec × List FieldError) × List String :=
  let p := checkClusterName row seen
  let r2 := checkClusterGroup row
  let r3 := checkClusterTags row
  let errs := errOf p.1 ++ errOf r2 ++ errOf r3 ++ extraFieldErrs row
  if errs = [] then ((recOf p.1 r2 r3, []), p.2)
  else ((none, errs), p.2)

/-- The declared fields whose independent validation fails on this row, in
declaration order. -/
def failingFields (row : List (String × String)) (seen : List String) :
    List String :=
  (errOf (checkClusterName row seen).1).map FieldError.field
    ++ (errOf (checkClusterGroup row)).map FieldError.field
    ++ (errOf (checkClusterTags row)).map FieldError.field

/-- One entry of `model_fields` as consumed by `CLI._validate_csv_fields`:
the field's name and whether `field.is_required()` holds. -/
structure ModelField where
  name : String
  required : Bool
deriving DecidableEq

/-- Severity of a logged diagnostic. -/
inductive Severity where
  | warning
  | error
deriving DecidableEq

/-- A header diagnostic logged by `CLI._validate_csv_fields`: its severity
and the missing field's name. -/
structure Diag where
  severity : Severity
  fieldName : String
deriving DecidableEq

/-- The loop body of `CLI._validate_csv_fields`: for each model field absent
from the header, log a warning if the field is optional and an error if it is
required, setting the sticky `validation_error` flag only in the error
case. -/
def validateFieldsLoop : List ModelField → List String → List Diag × Bool
  | [], _ => ([], false)
  | f :: rest, header =>
      let r := validateFieldsLoop rest header
      if f.name ∈ header then r
      else if f.required then (⟨Severity.error, f.name⟩ :: r.1, true)
      else (⟨Severity.warning, f.name⟩ :: r.1, r.2)

/-- Embedding of `CLI._validate_csv_fields`: a falsy `fieldnames` (missing or
empty header) logs `Missing CSV field names` once and raises `RuntimeError
('missing CSV field names')`, modelled as `Except.error`; otherwise the
per-field loop returns the diagnostics and the `validation_error` flag. -/
def validate_csv_fields (modelFields : List ModelField) (header : List String) :
    Except String (List Diag × Bool) :=
  match header with
  | [] => Except.error "missing CSV field names"
  | _ => Except.ok (validateFieldsLoop modelFields header)

/-- `model_fields` of `model.BaseCluster`: all three fields are required
(none has a default). -/
def baseClusterModelFields : List ModelField :=
  [⟨"cluster_name", true⟩, ⟨"cluster_group", true⟩, ⟨"cluster_tags", true⟩]

/-- The row loop of `CLI.run`: validate each row, accumulate the sticky
error flag, and thread the `unique` seen-set across rows. -/
def runRows : List (List (String × String)) → List String → Bool × List String
  | [], seen => (false, seen)
  | r :: rest, seen =>
      let out := validateRow r seen
      let next := runRows rest out.2
      ((!out.1.2.isEmpty) || next.1, next.2)

/-- Embedding of the exit-code skeleton of `CLI.run` for the built-in
`BaseCluster` schema: a `RuntimeError` from `_validate_csv_fields` returns
exit code 1 before any row is read; otherwise every row is processed and the
run exits `-1` if the header check or any row failed, else `0`.  The second
component counts the rows processed. -/
def runCLI (header : List String) (rows : List (List (String × String))) :
    Int × Nat :=
  match validate_csv_fields baseClusterModelFields header with
  | Except.error _ => (1, 0)
  | Except.ok (_, headerErr) =>
      (if headerErr || (runRows rows []).1 then -1 else 0, rows.length)

/-- A raw row as produced by `csv.DictReader`: the string-keyed entries plus
the optional `restkey` (`None`-keyed) overflow list that appears when a data
row has more columns than the header. -/
structure PyRow where
  entries : List (String × String)
  restVals : Option (List String)
deriving DecidableEq

/-- The message logged by the `except TypeError` branch of
`CLI._validate_csv_row`, citing the row's line number. -/
def malformedRowMsg (lineNum : Nat) (clusterName : String) : String :=
  "Line " ++ toString lineNum ++ ", " ++ clusterName ++
    ", error: encountered Python TypeError, this usually means the CSV is " ++
    "malformed; please check this row for extra fields or syntax errors."

/-- Embedding of `CLI._validate_csv_row`'s exception structure.  A row
carrying the `restkey` sentinel makes `self._model(**row)` raise `TypeError`
(a `None` keyword); the handler formats its log line with `row['cluster_name']`,
which itself raises an uncaught `KeyError` when the row has no
`cluster_name` key — modelled as `Except.error`.  Otherwise the row is
validated and `(record?, row_error, malformed_log?)` is returned together
with the threaded seen-set. -/
def validate_csv_row (lineNum : Nat) (row : PyRow) (seen : List String) :
    Except String ((Option BaseClusterRec × Bool × Option String) × List String) :=
  match row.restVals with
  | some _ =>
      match row.entries.lookup "cluster_name" with
      | some name => Except.ok ((none, true, some (malformedRowMsg lineNum name)), seen)
      | none => Except.error "KeyError: cluster_name"
  | none =>
      let out := validateRow row.entries seen
      Except.ok ((out.1.1, !out.1.2.isEmpty, none), out.2)

/-- C10: the uniqueness validator is atomic and value-preserving — a value
already in the seen-set fails and leaves the set unchanged; an unseen value
succeeds, is returned unchanged, and exactly that value is added to the
set. -/
theorem unique_nested_atomic {α} [DecidableEq α] [ToString α] (v : α) (seen : List α) :
    (v ∈ seen → unique_nested v seen = (Except.error (uniqueValueMsg v), seen))
    ∧ (v ∉ seen → unique_nested v seen = (Except.ok v, v :: seen)
        ∧ ∀ w, w ∈ (unique_nested v seen).2 ↔ w = v ∨ w ∈ seen) := by
  constructor
  · intro h
    simp [unique_nested, h]
  · intro h
    refine ⟨by simp [unique_nested, h], fun w => ?_⟩
    simp [unique_nested, h]

/-- Witness for `unique_nested_atomic` at a concrete unseen value. -/
theorem unique_nested_atomic_witness :
    unique_nested "b" ["a"] = (Except.ok "b", ["b", "a"]) :=
  ((unique_nested_atomic "b" ["a"]).2 (by decide)).1

/-- C3: evaluation of the comma-split coercion.  The example input
`" a, b ,,a"` does coerce to the set of `"a"` and `"b"` and serializes as
`"a,b"`, but the whitespace-only input `" "` coerces to a set containing the
EMPTY string — the `if e` guard runs before `strip`, so a whitespace-only
token survives and strips to `""`, contradicting the function's own
docstring (`Only adds string to set if it is a non-empty string`). -/
theorem coerce_commas_whitespace_token_bug :
    coerce_splt_commas_rtn_set_strs " " = some [""]
    ∧ coerce_splt_commas_rtn_set_strs " a, b ,,a" = some ["a", "b"]
    ∧ dump_set_of_vals (coerce_splt_commas_rtn_set_strs " a, b ,,a") = "a,b" :=
  ⟨by decide, by decide, by decide⟩

/-- C9: the IPv4 CIDR field rejects `"10.0.0.1/33"` (mask 33 is out of
range) with an error citing the invalid CIDR value, while `"10.0.0.0/24"`
passes and serializes back as exactly the same string. -/
theorem ipv4_cidr_scenario :
    validate_ipv4_address "10.0.0.1/33" = Except.error "Invalid CIDR value: 10.0.0.1/33"
    ∧ validate_ipv4_address "10.0.0.0/24" = Except.ok "10.0.0.0/24"
    ∧ dump_str_field "10.0.0.0/24" = "10.0.0.0/24" :=
  ⟨rfl, rfl, rfl⟩

/-- C8: evaluation of `_validate_csv_row` on malformed row shapes.  When the
row carries the `restkey` sentinel and also lacks a `cluster_name` key (the
header omitted it), the `except TypeError` handler's own
`row['cluster_name']` lookup raises an uncaught `KeyError` — the exception
escapes the row-validation boundary instead of being reported.  When
`cluster_name` is present the malformed row is reported with its line
number, as the claim states. -/
theorem malformed_row_keyerror_crash :
    validate_csv_row 2 ⟨[("a", "1"), ("b", "2")], some ["3"]⟩ []
        = Except.error "KeyError: cluster_name"
    ∧ validate_csv_row 2 ⟨[("cluster_name", "x")], some ["3"]⟩ []
        = Except.ok ((none, true, some (malformedRowMsg 2 "x")), []) :=
  ⟨rfl, rfl⟩

theorem validateClusterName_mem (s : String) (seen : List String)
    (h1 : 1 ≤ (clusterNameNorm s).length) (h2 : (clusterNameNorm s).length ≤ 30)
    (hm : clusterNameNorm s ∈ seen) :
    validateClusterName s seen =
      (FieldResult.err ("Value error, " ++ uniqueValueMsg (clusterNameNorm s)), seen) := by
  simp only [validateClusterName, unique_nested]
  rw [if_neg (by omega), if_neg (by omega), if_pos hm]

theorem validateClusterName_not_mem (s : String) (seen : List String)
    (h1 : 1 ≤ (clusterNameNorm s).length) (h2 : (clusterNameNorm s).length ≤ 30)
    (hm : clusterNameNorm s ∉ seen) :
    validateClusterName s seen =
      (FieldResult.ok (clusterNameNorm s), clusterNameNorm s :: seen) := by
  simp only [validateClusterName, unique_nested]
  rw [if_neg (by omega), if_neg (by omega), if_neg hm]

theorem runSession_length (vs seen : List String) :
    (runSession vs seen).1.length = vs.length := by
  induction vs generalizing seen with
  | nil => rfl
  | cons v rest ih => simp [runSession, ih]

theorem runSession_cons_fst (v : String) (rest seen : List String) :
    (runSession (v :: rest) seen).1 =
      (validateClusterName v seen).1
        :: (runSession rest (validateClusterName v seen).2).1 := rfl

theorem runSession_getElem (vs : List String) (seen : List String)
    (h : ∀ v ∈ vs, 1 ≤ (clusterNameNorm v).length ∧ (clusterNameNorm v).length ≤ 30) :
    ∀ i, (hi : i < vs.length) →
      ((runSession vs seen).1)[i]? =
        some (if clusterNameNorm vs[i] ∈ seen
                ∨ clusterNameNorm vs[i] ∈ (vs.take i).map clusterNameNorm
          then FieldResult.err ("Value error, " ++ uniqueValueMsg (clusterNameNorm vs[i]))
          else FieldResult.ok (clusterNameNorm vs[i])) := by
  induction vs generalizing seen with
  | nil => intro i hi; simp at hi
  | cons v rest ih =>
    intro i hi
    have hv1 := (h v (List.mem_cons_self v rest)).1
    have hv2 := (h v (List.mem_cons_self v rest)).2
    have hrest : ∀ u ∈ rest, 1 ≤ (clusterNameNorm u).length ∧ (clusterNameNorm u).length ≤ 30 :=
      fun u hu => h u (List.mem_cons_of_mem v hu)
    cases i with
    | zero =>
      by_cases hm : clusterNameNorm v ∈ seen
      · rw [runSession_cons_fst, validateClusterName_mem v seen hv1 hv2 hm]
        simp [hm]
      · rw [runSession_cons_fst, validateClusterName_not_mem v seen hv1 hv2 hm]
        simp [hm]
    | succ j =>
      have hj : j < rest.length := by simpa using hi
      by_cases hm : clusterNameNorm v ∈ seen
      · have hsnd : (validateClusterName v seen).2 = seen := by
          rw [validateClusterName_mem v seen hv1 hv2 hm]
        rw [runSession_cons_fst, List.getElem?_cons_succ, hsnd, ih seen hrest j hj]
        have hiff : (clusterNameNorm rest[j] ∈ seen
              ∨ clusterNameNorm rest[j] ∈ (rest.take j).map clusterNameNorm)
            ↔ (clusterNameNorm rest[j] ∈ seen
              ∨ (clusterNameNorm rest[j] = clusterNameNorm v
                ∨ clusterNameNorm rest[j] ∈ (rest.take j).map clusterNameNorm)) := by
          constructor
          · rintro (hx | hx)
            · exact Or.inl hx
            · exact Or.inr (Or.inr hx)
          · rintro (hx | hx | hx)
            · exact Or.inl hx
            · rw [hx]; exact Or.inl hm
            · exact Or.inr hx
        simp only [List.getElem_cons_succ, List.take_succ_cons, List.map_cons,
          List.mem_cons, hiff]
      · have hsnd : (validateClusterName v seen).2 = clusterNameNorm v :: seen := by
          rw [validateClusterName_not_mem v seen hv1 hv2 hm]
        rw [runSession_cons_fst, List.getElem?_cons_succ, hsnd, ih _ hrest j hj]
        have hiff : (clusterNameNorm rest[j] ∈ clusterNameNorm v :: seen
              ∨ clusterNameNorm rest[j] ∈ (rest.take j).map clusterNameNorm)
            ↔ (clusterNameNorm rest[j] ∈ seen
              ∨ (clusterNameNorm rest[j] = clusterNameNorm v
                ∨ clusterNameNorm rest[j] ∈ (rest.take j).map clusterNameNorm)) := by
          simp only [List.mem_cons]
          tauto
        simp only [List.getElem_cons_succ, List.take_succ_cons, List.map_cons,
          List.mem_cons, hiff]
        congr 1
        apply if_congr _ rfl rfl
        tauto

theorem isErrR_err (m : String) : isErrR (FieldResult.err m) = true := rfl

theorem isErrR_ok (v : String) : isErrR (FieldResult.ok v) = false := rfl

theorem runSession_countP (vs : List String) :
    ∀ seen, (∀ v ∈ vs, 1 ≤ (clusterNameNorm v).length ∧ (clusterNameNorm v).length ≤ 30) →
      (runSession vs seen).1.countP isErrR + newDistinct (vs.map clusterNameNorm) seen
        = vs.length := by
  induction vs with
  | nil => intro seen h; simp [runSession, newDistinct]
  | cons v rest ih =>
    intro seen h
    have hv1 := (h v (List.mem_cons_self v rest)).1
    have hv2 := (h v (List.mem_cons_self v rest)).2
    have hrest : ∀ u ∈ rest, 1 ≤ (clusterNameNorm u).length ∧ (clusterNameNorm u).length ≤ 30 :=
      fun u hu => h u (List.mem_cons_of_mem v hu)
    rw [runSession_cons_fst]
    by_cases hm : clusterNameNorm v ∈ seen
    · have hih := ih seen hrest
      simp only [validateClusterName_mem v seen hv1 hv2 hm, List.map_cons, newDistinct,
        if_pos hm, List.countP_cons, isErrR_err, if_true, List.length_cons]
      omega
    · have hih := ih (clusterNameNorm v :: seen) hrest
      simp only [validateClusterName_not_mem v seen hv1 hv2 hm, List.map_cons, newDistinct,
        if_neg hm, List.countP_cons, isErrR_ok, Bool.false_eq_true, if_false,
        List.length_cons]
      omega

theorem cv_card_insert_erase {α} [DecidableEq α] (a : α) (T : Finset α) :
    (insert a T).card = (T.erase a).card + 1 := by
  have h : insert a T = insert a (T.erase a) := by
    ext x
    simp only [Finset.mem_insert, Finset.mem_erase]
    constructor
    · rintro (rfl | hx)
      · exact Or.inl rfl
      · by_cases hxa : x = a
        · exact Or.inl hxa
        · exact Or.inr ⟨hxa, hx⟩
    · rintro (rfl | ⟨hxa, hx⟩)
      · exact Or.inl rfl
      · exact Or.inr hx
  rw [h, Finset.card_insert_of_not_mem (Finset.not_mem_erase a T)]

theorem newDistinct_card (L : List String) :
    ∀ seen, newDistinct L seen = (L.toFinset \ seen.toFinset).card := by
  induction L with
  | nil => intro seen; simp [newDistinct]
  | cons a rest ih =>
    intro seen
    by_cases hm : a ∈ seen
    · have hset : (a :: rest).toFinset \ seen.toFinset = rest.toFinset \ seen.toFinset := by
        ext x
        simp only [List.toFinset_cons, Finset.mem_sdiff, Finset.mem_insert, List.mem_toFinset]
        constructor
        · rintro ⟨rfl | hx, hns⟩
          · exact absurd hm hns
          · exact ⟨hx, hns⟩
        · rintro ⟨hx, hns⟩
          exact ⟨Or.inr hx, hns⟩
      rw [show newDistinct (a :: rest) seen = newDistinct rest seen from by
            simp [newDistinct, hm],
          hset]
      exact ih seen
    · have h1 : (a :: rest).toFinset \ seen.toFinset
          = insert a (rest.toFinset \ seen.toFinset) := by
        ext x
        simp only [List.toFinset_cons, Finset.mem_sdiff, Finset.mem_insert, List.mem_toFinset]
        constructor
        · rintro ⟨rfl | hx, hns⟩
          · exact Or.inl rfl
          · exact Or.inr ⟨hx, hns⟩
        · rintro (rfl | ⟨hx, hns⟩)
          · exact ⟨Or.inl rfl, hm⟩
          · exact ⟨Or.inr hx, hns⟩
      have h2 : rest.toFinset \ (a :: seen).toFinset
          = (rest.toFinset \ seen.toFinset).erase a := by
        ext x
        simp only [List.toFinset_cons, Finset.mem_sdiff, Finset.mem_erase,
          Finset.mem_insert, List.mem_toFinset]
        constructor
        · rintro ⟨hx, hns⟩
          exact ⟨fun hxa => hns (Or.inl hxa), hx, fun hs => hns (Or.inr hs)⟩
        · rintro ⟨hxa, hx, hns⟩
          refine ⟨hx, fun hc => ?_⟩
          rcases hc with rfl | hs
          · exact hxa rfl
          · exact hns hs
      rw [show newDistinct (a :: rest) seen = newDistinct rest (a :: seen) + 1 from by
            simp [newDistinct, hm],
          ih (a :: seen), h1, h2, cv_card_insert_erase]

theorem cv_sum_sub_one (L : List String) :
    ∀ D : List String, (∀ v ∈ D, v ∈ L) →
      (D.map (fun v => L.count v - 1)).sum + D.length = (D.map fun x => L.count x).sum := by
  intro D
  induction D with
  | nil => intro h; simp
  | cons a rest ih =>
    intro h
    have ha := List.count_pos_iff.mpr (h a (List.mem_cons_self a rest))
    have hr := ih (fun u hu => h u (List.mem_cons_of_mem a hu))
    simp only [List.map_cons, List.sum_cons, List.length_cons]
    omega

theorem cv_dup_sum (L : List String) :
    (L.dedup.map (fun v => L.count v - 1)).sum + L.dedup.length = L.length := by
  have h1 := List.sum_map_count_dedup_eq_length L
  have h2 := cv_sum_sub_one L L.dedup (fun v hv => List.mem_dedup.mp hv)
  omega

/-- C1: within one session over a unique field (ClusterName), for every
sequence of raw values whose normalized forms satisfy the length
constraints, the first occurrence of each (normalized) value succeeds, every
later occurrence fails with the `not unique` error citing the duplicate
value, regardless of position, and the number of duplicate errors is the sum
over all values of (occurrence count minus one). -/
theorem cluster_name_uniqueness (vs : List String)
    (h : ∀ v ∈ vs, 1 ≤ (clusterNameNorm v).length ∧ (clusterNameNorm v).length ≤ 30) :
    (runSession vs []).1.length = vs.length
    ∧ (∀ i, (hi : i < vs.length) →
        ((runSession vs []).1)[i]? =
          some (if clusterNameNorm vs[i] ∈ (vs.take i).map clusterNameNorm
            then FieldResult.err ("Value error, " ++ uniqueValueMsg (clusterNameNorm vs[i]))
            else FieldResult.ok (clusterNameNorm vs[i])))
    ∧ (runSession vs []).1.countP isErrR =
        ((vs.map clusterNameNorm).dedup.map
          (fun v => (vs.map clusterNameNorm).count v - 1)).sum := by
  refine ⟨runSession_length vs [], ?_, ?_⟩
  · intro i hi
    have hg := runSession_getElem vs [] h i hi
    simpa using hg
  · have hc := runSession_countP vs [] h
    have hnd := newDistinct_card (vs.map clusterNameNorm) []
    have hcard : newDistinct (vs.map clusterNameNorm) [] = (vs.map clusterNameNorm).dedup.length := by
      rw [hnd]
      simp [List.card_toFinset]
    have hsum := cv_dup_sum (vs.map clusterNameNorm)
    have hlen : (vs.map clusterNameNorm).length = vs.length := List.length_map _ _
    omega

/-- Witness for `cluster_name_uniqueness`: the session `["a", "b", "a"]` has
exactly one duplicate error, matching the sum of (count minus one). -/
theorem cluster_name_uniqueness_witness :
    (runSession ["a", "b", "a"] []).1.countP isErrR =
      (((["a", "b", "a"].map clusterNameNorm).dedup.map
        (fun v => (["a", "b", "a"].map clusterNameNorm).count v - 1))).sum :=
  (cluster_name_uniqueness ["a", "b", "a"] (by decide)).2.2

/-- C2: the uniqueness tracker is session-scoped.  Each CLI process runs one
validation session and evaluates `unique()` afresh when it imports the model
module, so every session's seen-set starts empty; consequently, for two
sessions run one after another, a value first seen in the earlier session is
again treated as unseen in the later session — its first occurrence there
succeeds even though the value sits in the earlier session's final
seen-set. -/
theorem session_scoped_uniqueness (vs1 vs2 : List String)
    (h2 : ∀ v ∈ vs2, 1 ≤ (clusterNameNorm v).length ∧ (clusterNameNorm v).length ≤ 30)
    (i : Nat) (hi : i < vs2.length)
    (hfirst : clusterNameNorm vs2[i] ∉ (vs2.take i).map clusterNameNorm)
    (hseen : clusterNameNorm vs2[i] ∈ (runSession vs1 []).2) :
    ((runSession vs2 []).1)[i]? = some (FieldResult.ok (clusterNameNorm vs2[i])) := by
  have hg := runSession_getElem vs2 [] h2 i hi
  have hf2 := hfirst
  rw [List.map_take] at hf2
  simpa [hf2] using hg

/-- Witness for `session_scoped_uniqueness`: the value `"a"` seen in session
one succeeds again at its first occurrence in session two. -/
theorem session_scoped_uniqueness_witness :
    ((runSession ["a"] []).1)[0]? = some (FieldResult.ok (clusterNameNorm "a")) :=
  session_scoped_uniqueness ["a"] ["a"] (by decide) 0 (by decide) (by decide) (by decide)

theorem cv_lookup_mem : ∀ (row : List (String × String)) (k v : String),
    row.lookup k = some v → (k, v) ∈ row := by
  intro row
  induction row with
  | nil => intro k v h; simp [List.lookup] at h
  | cons p rest ih =>
    intro k v h
    obtain ⟨k2, v2⟩ := p
    simp only [List.lookup] at h
    by_cases hk : k = k2
    · subst hk
      simp only [beq_self_eq_true] at h
      cases h
      exact List.mem_cons_self _ _
    · have hb : (k == k2) = false := by simpa using hk
      rw [hb] at h
      exact List.mem_cons_of_mem _ (ih k v h)

theorem cv_filter_key : ∀ (row : List (String × String)) (k v : String),
    (row.map Prod.fst).Nodup → row.lookup k = some v →
    row.filter (fun kv => kv.1 == k) = [(k, v)] := by
  intro row
  induction row with
  | nil => intro k v hnd h; simp [List.lookup] at h
  | cons p rest ih =>
    intro k v hnd h
    obtain ⟨k2, v2⟩ := p
    simp only [List.map_cons, List.nodup_cons] at hnd
    obtain ⟨hk2, hndr⟩ := hnd
    simp only [List.lookup] at h
    by_cases hk : k = k2
    · subst hk
      simp only [beq_self_eq_true] at h
      cases h
      have hrest : rest.filter (fun kv => kv.1 == k) = [] := by
        rw [List.filter_eq_nil_iff]
        intro kv hkv
        simp only [beq_iff_eq]
        intro hEq
        exact hk2 (hEq ▸ List.mem_map_of_mem Prod.fst hkv)
      simp [List.filter_cons, hrest]
    · have hb : (k == k2) = false := by simpa using hk
      rw [hb] at h
      have hb2 : (k2 == k) = false := by simpa using fun hEq => hk hEq.symm
      simp [List.filter_cons, hb2, ih k v hndr h]

theorem errOf_small {β} (x : Except FieldError β) : errOf x = [] ∨ ∃ e, errOf x = [e] := by
  cases x with
  | error e => exact Or.inr ⟨e, rfl⟩
  | ok v => exact Or.inl rfl

theorem checkClusterName_err_shape (row : List (String × String)) (seen : List String) :
    ∀ e ∈ errOf (checkClusterName row seen).1,
      e.field = "cluster_name"
        ∧ (∀ s, row.lookup "cluster_name" = some s → e.input = s) := by
  intro e he
  unfold checkClusterName at he
  cases hlk : row.lookup "cluster_name" with
  | none =>
    rw [hlk] at he
    simp only [errOf, List.mem_singleton] at he
    subst he
    refine ⟨rfl, fun s hs => ?_⟩
    cases hs
  | some s0 =>
    rw [hlk] at he
    simp only [] at he
    rcases hv : validateClusterName s0 seen with ⟨r, seen2⟩
    rw [hv] at he
    cases r with
    | ok v => simp [errOf] at he
    | err m =>
      simp only [errOf, List.mem_singleton] at he
      subst he
      refine ⟨rfl, fun s hs => ?_⟩
      cases hs
      rfl

theorem checkClusterGroup_err_shape (row : List (String × String)) :
    ∀ e ∈ errOf (checkClusterGroup row),
      e.field = "cluster_group" ∧ row.lookup "cluster_group" = none := by
  intro e he
  unfold checkClusterGroup at he
  cases hlk : row.lookup "cluster_group" with
  | none =>
    rw [hlk] at he
    simp only [errOf, List.mem_singleton] at he
    subst he
    exact ⟨rfl, rfl⟩
  | some s0 =>
    rw [hlk] at he
    simp [errOf] at he

theorem checkClusterTags_err_shape (row : List (String × String)) :
    ∀ e ∈ errOf (checkClusterTags row),
      e.field = "cluster_tags" ∧ row.lookup "cluster_tags" = none := by
  intro e he
  unfold checkClusterTags at he
  cases hlk : row.lookup "cluster_tags" with
  | none =>
    rw [hlk] at he
    simp only [errOf, List.mem_singleton] at he
    subst he
    exact ⟨rfl, rfl⟩
  | some s0 =>
    rw [hlk] at he
    simp [errOf] at he

theorem failingFields_name_part (row : List (String × String)) (seen : List String) :
    List.Sublist ((errOf (checkClusterName row seen).1).map FieldError.field) ["cluster_name"] := by
  rcases errOf_small (checkClusterName row seen).1 with hz | ⟨e, he⟩
  · rw [hz]
    exact List.nil_sublist _
  · rw [he]
    have hf := (checkClusterName_err_shape row seen e
      (by rw [he]; exact List.mem_singleton_self e)).1
    rw [List.map_singleton, hf]

theorem failingFields_group_part (row : List (String × String)) :
    List.Sublist ((errOf (checkClusterGroup row)).map FieldError.field) ["cluster_group"] := by
  rcases errOf_small (checkClusterGroup row) with hz | ⟨e, he⟩
  · rw [hz]
    exact List.nil_sublist _
  · rw [he]
    have hf := (checkClusterGroup_err_shape row e
      (by rw [he]; exact List.mem_singleton_self e)).1
    rw [List.map_singleton, hf]

theorem failingFields_tags_part (row : List (String × String)) :
    List.Sublist ((errOf (checkClusterTags row)).map FieldError.field) ["cluster_tags"] := by
  rcases errOf_small (checkClusterTags row) with hz | ⟨e, he⟩
  · rw [hz]
    exact List.nil_sublist _
  · rw [he]
    have hf := (checkClusterTags_err_shape row e
      (by rw [he]; exact List.mem_singleton_self e)).1
    rw [List.map_singleton, hf]

/-- C4: a row whose keys all belong to the schema and in which some fields
independently fail produces one `FieldError` per failing field — the error
list's field names are exactly the failing fields, in order, with no
duplicates — the row yields no record, and every error carries the raw input
of its field. -/
theorem row_error_completeness (row : List (String × String)) (seen : List String)
    (hnx : ∀ kv ∈ row, kv.1 ∈ schemaFieldNames) :
    (validateRow row seen).1.2.map FieldError.field = failingFields row seen
    ∧ (failingFields row seen ≠ [] → (validateRow row seen).1.1 = none)
    ∧ (failingFields row seen).Nodup
    ∧ (∀ e ∈ (validateRow row seen).1.2, ∀ s, row.lookup e.field = some s → e.input = s) := by
  have hex : extraFieldErrs row = [] := by
    unfold extraFieldErrs
    have hfil : row.filter (fun kv => decide (kv.1 ∉ schemaFieldNames)) = [] := by
      rw [List.filter_eq_nil_iff]
      intro kv hkv
      simpa using hnx kv hkv
    rw [hfil]
    rfl
  have hmapE : (errOf (checkClusterName row seen).1 ++ errOf (checkClusterGroup row)
        ++ errOf (checkClusterTags row)).map FieldError.field = failingFields row seen := by
    unfold failingFields
    simp [List.map_append]
  have hnodup : (failingFields row seen).Nodup := by
    have hsub : (failingFields row seen).Sublist schemaFieldNames := by
      unfold failingFields
      exact ((failingFields_name_part row seen).append
        (failingFields_group_part row)).append (failingFields_tags_part row)
    exact hsub.nodup (by decide)
  simp only [validateRow, hex, List.append_nil]
  by_cases hE : errOf (checkClusterName row seen).1 ++ errOf (checkClusterGroup row)
      ++ errOf (checkClusterTags row) = []
  · rw [if_pos hE]
    refine ⟨?_, ?_, hnodup, ?_⟩
    · rw [← hmapE, hE]
    · intro hne
      exact absurd (by rw [← hmapE, hE]; rfl) hne
    · intro e he s hs
      simp at he
  · rw [if_neg hE]
    refine ⟨hmapE, fun _ => rfl, hnodup, ?_⟩
    intro e he s hs
    rcases List.mem_append.mp he with he2 | he3
    · rcases List.mem_append.mp he2 with ha | hb
      · have hshape := checkClusterName_err_shape row seen e ha
        rw [hshape.1] at hs
        exact hshape.2 s hs
      · have hshape := checkClusterGroup_err_shape row e hb
        rw [hshape.1] at hs
        rw [hshape.2] at hs
        cases hs
    · have hshape := checkClusterTags_err_shape row e he3
      rw [hshape.1] at hs
      rw [hshape.2] at hs
      cases hs

/-- Witness for `row_error_completeness`: a row with an empty
`cluster_name` and a missing `cluster_tags` key yields exactly those two
field errors. -/
theorem row_error_completeness_witness :
    (validateRow [("cluster_name", ""), ("cluster_group", "g")] []).1.2.map FieldError.field
      = failingFields [("cluster_name", ""), ("cluster_group", "g")] [] :=
  (row_error_completeness [("cluster_name", ""), ("cluster_group", "g")] [] (by decide)).1

theorem cv_extra_filter : ∀ (row : List (String × String)) (k v : String),
    (row.map Prod.fst).Nodup → row.lookup k = some v → k ∉ schemaFieldNames →
    (extraFieldErrs row).filter (fun e => e.field == k)
      = [⟨k, "Extra inputs are not permitted", v⟩] := by
  intro row
  induction row with
  | nil => intro k v hnd h hks; simp [List.lookup] at h
  | cons p rest ih =>
    intro k v hnd h hks
    obtain ⟨k2, v2⟩ := p
    simp only [List.map_cons, List.nodup_cons] at hnd
    obtain ⟨hk2, hndr⟩ := hnd
    simp only [List.lookup] at h
    by_cases hk : k = k2
    · subst hk
      simp only [beq_self_eq_true] at h
      cases h
      have hhead : extraFieldErrs ((k, v) :: rest) =
          (⟨k, "Extra inputs are not permitted", v⟩ : FieldError) :: extraFieldErrs rest := by
        unfold extraFieldErrs
        rw [List.filter_cons]
        simp [hks]
      have hrest : (extraFieldErrs rest).filter (fun e => e.field == k) = [] := by
        rw [List.filter_eq_nil_iff]
        intro e he
        unfold extraFieldErrs at he
        rcases List.mem_map.mp he with ⟨kv, hkv, rfl⟩
        have hkvr : kv ∈ rest := (List.mem_filter.mp hkv).1
        simp only [beq_iff_eq]
        intro hEq
        exact hk2 (hEq ▸ List.mem_map_of_mem Prod.fst hkvr)
      rw [hhead, List.filter_cons]
      simp [hrest]
    · have hb : (k == k2) = false := by simpa using hk
      rw [hb] at h
      by_cases hq : k2 ∉ schemaFieldNames
      · have hhead : extraFieldErrs ((k2, v2) :: rest) =
            (⟨k2, "Extra inputs are not permitted", v2⟩ : FieldError) :: extraFieldErrs rest := by
          unfold extraFieldErrs
          rw [List.filter_cons]
          simp [hq]
        have hne : ((⟨k2, "Extra inputs are not permitted", v2⟩ : FieldError).field == k)
            = false := by
          simpa using fun hEq => hk hEq.symm
        rw [hhead, List.filter_cons]
        simp only [hne, Bool.false_eq_true, if_false]
        exact ih k v hndr h hks
      · have hhead : extraFieldErrs ((k2, v2) :: rest) = extraFieldErrs rest := by
          unfold extraFieldErrs
          rw [List.filter_cons]
          simp [hq]
        rw [hhead]
        exact ih k v hndr h hks

/-- C5: under the reject-extra-fields policy, every row key absent from the
schema's field set produces exactly one `Extra inputs are not permitted`
error for that key, carrying its raw value, and the row yields no record. -/
theorem extra_fields_rejected (row : List (String × String)) (seen : List String)
    (key v : String)
    (hnd : (row.map Prod.fst).Nodup)
    (hlk : row.lookup key = some v)
    (hks : key ∉ schemaFieldNames) :
    (validateRow row seen).1.1 = none
    ∧ (validateRow row seen).1.2.filter (fun e => e.field == key) =
        [⟨key, "Extra inputs are not permitted", v⟩] := by
  have hmem : (key, v) ∈ row := cv_lookup_mem row key v hlk
  have hexmem : (⟨key, "Extra inputs are not permitted", v⟩ : FieldError)
      ∈ extraFieldErrs row := by
    unfold extraFieldErrs
    exact List.mem_map.mpr ⟨(key, v), List.mem_filter.mpr ⟨hmem, by simpa using hks⟩, rfl⟩
  have hne : errOf (checkClusterName row seen).1 ++ errOf (checkClusterGroup row)
      ++ errOf (checkClusterTags row) ++ extraFieldErrs row ≠ [] := by
    intro hz
    rcases List.append_eq_nil.mp hz with ⟨_, hzex⟩
    rw [hzex] at hexmem
    simp at hexmem
  simp only [validateRow]
  rw [if_neg hne]
  refine ⟨rfl, ?_⟩
  rw [List.filter_append, List.filter_append, List.filter_append]
  have f1 : (errOf (checkClusterName row seen).1).filter (fun e => e.field == key) = [] := by
    rw [List.filter_eq_nil_iff]
    intro e he
    have hf := (checkClusterName_err_shape row seen e he).1
    simp only [hf, beq_iff_eq]
    intro hEq
    exact hks (hEq ▸ (by decide : "cluster_name" ∈ schemaFieldNames))
  have f2 : (errOf (checkClusterGroup row)).filter (fun e => e.field == key) = [] := by
    rw [List.filter_eq_nil_iff]
    intro e he
    have hf := (checkClusterGroup_err_shape row e he).1
    simp only [hf, beq_iff_eq]
    intro hEq
    exact hks (hEq ▸ (by decide : "cluster_group" ∈ schemaFieldNames))
  have f3 : (errOf (checkClusterTags row)).filter (fun e => e.field == key) = [] := by
    rw [List.filter_eq_nil_iff]
    intro e he
    have hf := (checkClusterTags_err_shape row e he).1
    simp only [hf, beq_iff_eq]
    intro hEq
    exact hks (hEq ▸ (by decide : "cluster_tags" ∈ schemaFieldNames))
  rw [f1, f2, f3, cv_extra_filter row key v hnd hlk hks]
  rfl

/-- Witness for `extra_fields_rejected`: a row with the unexpected column
`extra` yields exactly one extra-inputs error for it and no record. -/
theorem extra_fields_rejected_witness :
    (validateRow [("cluster_name", "x"), ("cluster_group", "g"),
        ("cluster_tags", ""), ("extra", "boom")] []).1.1 = none
    ∧ (validateRow [("cluster_name", "x"), ("cluster_group", "g"),
        ("cluster_tags", ""), ("extra", "boom")] []).1.2.filter
          (fun e => e.field == "extra") =
        [⟨"extra", "Extra inputs are not permitted", "boom"⟩] :=
  extra_fields_rejected [("cluster_name", "x"), ("cluster_group", "g"),
    ("cluster_tags", ""), ("extra", "boom")] [] "extra" "boom"
    (by decide) (by decide) (by decide)

theorem vfl_cons_mem (f0 : ModelField) (rest : List ModelField) (header : List String)
    (h : f0.name ∈ header) :
    validateFieldsLoop (f0 :: rest) header = validateFieldsLoop rest header := by
  simp [validateFieldsLoop, h]

theorem vfl_cons_missing_req (f0 : ModelField) (rest : List ModelField) (header : List String)
    (h : f0.name ∉ header) (hr : f0.required = true) :
    validateFieldsLoop (f0 :: rest) header =
      (⟨Severity.error, f0.name⟩ :: (validateFieldsLoop rest header).1, true) := by
  simp [validateFieldsLoop, h, hr]

theorem vfl_cons_missing_opt (f0 : ModelField) (rest : List ModelField) (header : List String)
    (h : f0.name ∉ header) (hr : f0.required = false) :
    validateFieldsLoop (f0 :: rest) header =
      (⟨Severity.warning, f0.name⟩ :: (validateFieldsLoop rest header).1,
        (validateFieldsLoop rest header).2) := by
  simp [validateFieldsLoop, h, hr]

theorem vfl_mem_missing (header : List String) :
    ∀ fields : List ModelField, ∀ f ∈ fields, f.name ∉ header →
      (⟨if f.required then Severity.error else Severity.warning, f.name⟩ : Diag)
        ∈ (validateFieldsLoop fields header).1 := by
  intro fields
  induction fields with
  | nil => intro f hf; simp at hf
  | cons f0 rest ih =>
    intro f hf hmiss
    rcases List.mem_cons.mp hf with rfl | hfr
    · by_cases hreq : f.required
      · rw [vfl_cons_missing_req f rest header hmiss hreq]
        simp [hreq]
      · have hreq2 : f.required = false := by simpa using hreq
        rw [vfl_cons_missing_opt f rest header hmiss hreq2]
        simp [hreq2]
    · have hrec := ih f hfr hmiss
      by_cases hin : f0.name ∈ header
      · rw [vfl_cons_mem f0 rest header hin]
        exact hrec
      · by_cases hreq : f0.required
        · rw [vfl_cons_missing_req f0 rest header hin hreq]
          exact List.mem_cons_of_mem _ hrec
        · have hreq2 : f0.required = false := by simpa using hreq
          rw [vfl_cons_missing_opt f0 rest header hin hreq2]
          exact List.mem_cons_of_mem _ hrec

theorem vfl_flag_iff (header : List String) :
    ∀ fields : List ModelField,
      ((validateFieldsLoop fields header).2 = true
        ↔ ∃ f ∈ fields, f.required = true ∧ f.name ∉ header) := by
  intro fields
  induction fields with
  | nil => simp [validateFieldsLoop]
  | cons f0 rest ih =>
    by_cases hin : f0.name ∈ header
    · rw [vfl_cons_mem f0 rest header hin, ih]
      constructor
      · rintro ⟨f, hf, hp⟩
        exact ⟨f, List.mem_cons_of_mem _ hf, hp⟩
      · rintro ⟨f, hf, hreq, hmiss⟩
        rcases List.mem_cons.mp hf with rfl | hfr
        · exact absurd hin hmiss
        · exact ⟨f, hfr, hreq, hmiss⟩
    · by_cases hreq : f0.required
      · rw [vfl_cons_missing_req f0 rest header hin hreq]
        constructor
        · intro _
          exact ⟨f0, List.mem_cons_self _ _, hreq, hin⟩
        · intro _
          rfl
      · have hreq2 : f0.required = false := by simpa using hreq
        rw [vfl_cons_missing_opt f0 rest header hin hreq2]
        constructor
        · intro hflag
          rcases ih.mp hflag with ⟨f, hf, hp⟩
          exact ⟨f, List.mem_cons_of_mem _ hf, hp⟩
        · rintro ⟨f, hf, hr2, hm2⟩
          rcases List.mem_cons.mp hf with rfl | hfr
          · rw [hreq2] at hr2
            cases hr2
          · exact ih.mpr ⟨f, hfr, hr2, hm2⟩

theorem vfl_diag_sound (header : List String) :
    ∀ fields : List ModelField, ∀ d ∈ (validateFieldsLoop fields header).1,
      ∃ f ∈ fields, f.name = d.fieldName ∧ f.name ∉ header
        ∧ d.severity = (if f.required then Severity.error else Severity.warning) := by
  intro fields
  induction fields with
  | nil => intro d hd; simp [validateFieldsLoop] at hd
  | cons f0 rest ih =>
    intro d hd
    by_cases hin : f0.name ∈ header
    · rw [vfl_cons_mem f0 rest header hin] at hd
      rcases ih d hd with ⟨f, hf, hp⟩
      exact ⟨f, List.mem_cons_of_mem _ hf, hp⟩
    · by_cases hreq : f0.required
      · rw [vfl_cons_missing_req f0 rest header hin hreq] at hd
        rcases List.mem_cons.mp hd with rfl | hdr
        · exact ⟨f0, List.mem_cons_self _ _, rfl, hin, by simp [hreq]⟩
        · rcases ih d hdr with ⟨f, hf, hp⟩
          exact ⟨f, List.mem_cons_of_mem _ hf, hp⟩
      · have hreq2 : f0.required = false := by simpa using hreq
        rw [vfl_cons_missing_opt f0 rest header hin hreq2] at hd
        rcases List.mem_cons.mp hd with rfl | hdr
        · exact ⟨f0, List.mem_cons_self _ _, rfl, hin, by simp [hreq2]⟩
        · rcases ih d hdr with ⟨f, hf, hp⟩
          exact ⟨f, List.mem_cons_of_mem _ hf, hp⟩

/-- C6: for every schema and every non-empty header, header validation emits
an error diagnostic for each required field missing from the header and a
warning diagnostic for each optional field missing; the session-failed flag
is set exactly when some required field is missing, so warnings alone never
set it; and every diagnostic corresponds to a missing field with the
severity determined by its requiredness. -/
theorem header_required_vs_optional (modelFields : List ModelField)
    (header : List String) (hne : header ≠ []) :
    validate_csv_fields modelFields header
        = Except.ok (validateFieldsLoop modelFields header)
    ∧ (∀ f ∈ modelFields, f.name ∉ header →
        (⟨if f.required then Severity.error else Severity.warning, f.name⟩ : Diag)
          ∈ (validateFieldsLoop modelFields header).1)
    ∧ ((validateFieldsLoop modelFields header).2 = true
        ↔ ∃ f ∈ modelFields, f.required = true ∧ f.name ∉ header)
    ∧ (∀ d ∈ (validateFieldsLoop modelFields header).1,
        ∃ f ∈ modelFields, f.name = d.fieldName ∧ f.name ∉ header
          ∧ d.severity = (if f.required then Severity.error else Severity.warning)) := by
  refine ⟨?_, vfl_mem_missing header modelFields, vfl_flag_iff header modelFields,
    vfl_diag_sound header modelFields⟩
  cases header with
  | nil => exact absurd rfl hne
  | cons a t => rfl

/-- Witness for `header_required_vs_optional`: with header `["c"]`, the
missing required field `a` gets an error diagnostic. -/
theorem header_required_vs_optional_witness :
    (⟨Severity.error, "a"⟩ : Diag)
      ∈ (validateFieldsLoop [⟨"a", true⟩, ⟨"b", false⟩] ["c"]).1 := by
  have h := (header_required_vs_optional [⟨"a", true⟩, ⟨"b", false⟩] ["c"]
    (by decide)).2.1 ⟨"a", true⟩ (by decide) (by decide)
  simpa using h

/-- C7: an empty or unavailable header makes the session raise the single
fatal `missing CSV field names` error and exit with the operational-error
code 1 before any row is processed; runs with a non-empty header never exit
with code 1 in this model, so the fatal outcome is distinct from the
schema-validation-failure outcome (-1) and the success outcome (0). -/
theorem missing_fieldnames_aborts :
    (∀ rows, runCLI [] rows = (1, 0))
    ∧ validate_csv_fields baseClusterModelFields []
        = Except.error "missing CSV field names"
    ∧ (∀ (header : List String) rows, header ≠ [] → (runCLI header rows).1 ≠ 1) := by
  refine ⟨fun rows => rfl, rfl, ?_⟩
  intro header rows hne
  cases header with
  | nil => exact absurd rfl hne
  | cons a t =>
    by_cases hc : ((validateFieldsLoop baseClusterModelFields (a :: t)).2
        || (runRows rows []).1) = true
    · simp [runCLI, validate_csv_fields, hc]
    · simp [runCLI, validate_csv_fields, hc]

/-- Witness for `missing_fieldnames_aborts`: a run with a non-empty header
does not exit with the operational-error code. -/
theorem missing_fieldnames_aborts_witness :
    (runCLI ["x"] []).1 ≠ 1 :=
  missing_fieldnames_aborts.2.2 ["x"] [] (by decide)
